import Mathlib

/-!
A verification development for the `migrator` schema-migration orchestrator.

The Python sources (`migrator/models.py`, `migrator/db.py`) are shallowly
embedded below: pure functions become Lean functions, the SQL statements of
the database layer become explicit state transformers over a list-of-rows
model of the control tables, and machine-level details (timestamps, serial
ids) become natural-number counters.  Byte strings (file contents and
SHA-256 digests) are modelled as `List Nat` with every element a byte.
-/

namespace Migrator

/-! ## SHA-256

`Revision.migration_hash` / `Revision.schema_hash` call `hashlib.sha256`
on the file text.  `hashlib` is the Python standard library; we embed the
function it computes, SHA-256 as specified by FIPS 180-4, over byte lists.
32-bit words are `Nat` values kept below `2^32` by explicit reduction. -/

/-- Truncate a natural number to a 32-bit word. -/
def w32 (n : Nat) : Nat := n % 4294967296

/-- Right-rotation of a 32-bit word by `n` bits. -/
def rotr (n x : Nat) : Nat := w32 ((x >>> n) ||| (x <<< (32 - n)))

/-- The SHA-256 round constants (FIPS 180-4 §4.2.2), in decimal. -/
def shaK : List Nat :=
  [1116352408, 1899447441, 3049323471, 3921009573, 961987163,
   1508970993, 2453635748, 2870763221, 3624381080, 310598401,
   607225278, 1426881987, 1925078388, 2162078206, 2614888103,
   3248222580, 3835390401, 4022224774, 264347078, 604807628,
   770255983, 1249150122, 1555081692, 1996064986, 2554220882,
   2821834349, 2952996808, 3210313671, 3336571891, 3584528711,
   113926993, 338241895, 666307205, 773529912, 1294757372,
   1396182291, 1695183700, 1986661051, 2177026350, 2456956037,
   2730485921, 2820302411, 3259730800, 3345764771, 3516065817,
   3600352804, 4094571909, 275423344, 430227734, 506948616,
   659060556, 883997877, 958139571, 1322822218, 1537002063,
   1747873779, 1955562222, 2024104815, 2227730452, 2361852424,
   2428436474, 2756734187, 3204031479, 3329325298]

/-- The SHA-256 initial hash value (FIPS 180-4 §5.3.3), in decimal. -/
def shaH0 : List Nat :=
  [1779033703, 3144134277, 1013904242, 2773480762, 1359893119,
   2600822924, 528734635, 1541459225]

/-- SHA-256 small sigma 0. -/
def sSigma0 (x : Nat) : Nat := (rotr 7 x) ^^^ (rotr 18 x) ^^^ (x >>> 3)

/-- SHA-256 small sigma 1. -/
def sSigma1 (x : Nat) : Nat := (rotr 17 x) ^^^ (rotr 19 x) ^^^ (x >>> 10)

/-- SHA-256 big Sigma 0. -/
def bSigma0 (x : Nat) : Nat := (rotr 2 x) ^^^ (rotr 13 x) ^^^ (rotr 22 x)

/-- SHA-256 big Sigma 1. -/
def bSigma1 (x : Nat) : Nat := (rotr 6 x) ^^^ (rotr 11 x) ^^^ (rotr 25 x)

/-- SHA-256 choice function. -/
def shaCh (e f g : Nat) : Nat := (e &&& f) ^^^ ((e ^^^ 4294967295) &&& g)

/-- SHA-256 majority function. -/
def shaMaj (a b c : Nat) : Nat := (a &&& b) ^^^ (a &&& c) ^^^ (b &&& c)

/-- Pack a byte list into big-endian 32-bit words, four bytes per word. -/
def toWords : List Nat → List Nat
  | b0 :: b1 :: b2 :: b3 :: rest =>
      (b0 <<< 24 ||| b1 <<< 16 ||| b2 <<< 8 ||| b3) :: toWords rest
  | _ => []

/-- Extend a 16-word message schedule by `n` further words (FIPS 180-4 §6.2.2 step 1). -/
def extendSchedule : List Nat → Nat → List Nat
  | ws, 0 => ws
  | ws, n + 1 =>
      let t := ws.length
      let v := w32 (sSigma1 (ws.getD (t - 2) 0) + ws.getD (t - 7) 0 +
                    sSigma0 (ws.getD (t - 15) 0) + ws.getD (t - 16) 0)
      extendSchedule (ws ++ [v]) n

/-- One SHA-256 compression round on the 8-word working state. -/
def shaRound (st : List Nat) (k w : Nat) : List Nat :=
  match st with
  | [a, b, c, d, e, f, g, h] =>
      let t1 := w32 (h + bSigma1 e + shaCh e f g + k + w)
      let t2 := w32 (bSigma0 a + shaMaj a b c)
      [w32 (t1 + t2), a, b, c, w32 (d + t1), e, f, g]
  | other => other

/-- Process one 64-byte chunk, updating the 8-word intermediate hash. -/
def processChunk (hs : List Nat) (chunk : List Nat) : List Nat :=
  let ws := extendSchedule (toWords chunk) 48
  let st := (shaK.zip ws).foldl (fun s kw => shaRound s kw.1 kw.2) hs
  (hs.zip st).map fun p => w32 (p.1 + p.2)

/-- Split a byte list into 64-byte chunks; the fuel argument (any bound on
the number of chunks, e.g. the list length) keeps the recursion structural. -/
def chunks64Go : Nat → List Nat → List (List Nat)
  | 0, _ => []
  | _ + 1, [] => []
  | n + 1, l => l.take 64 :: chunks64Go n (l.drop 64)

/-- Split a byte list into 64-byte chunks. -/
def chunks64 (l : List Nat) : List (List Nat) := chunks64Go l.length l

/-- SHA-256 message padding: append `0x80`, zeros, and the 64-bit big-endian
bit length, reaching a multiple of 64 bytes (FIPS 180-4 §5.1.1). -/
def shaPad (msg : List Nat) : List Nat :=
  let len := msg.length
  let zeros := (64 - ((len + 9) % 64)) % 64
  let bitLen := (8 * len) % 18446744073709551616
  msg ++ [0x80] ++ List.replicate zeros 0 ++
    ((List.range 8).map fun i => (bitLen >>> (8 * (7 - i))) &&& 255)

/-- Unpack a 32-bit word into four big-endian bytes. -/
def wordBytes (w : Nat) : List Nat :=
  [(w >>> 24) &&& 255, (w >>> 16) &&& 255, (w >>> 8) &&& 255, w &&& 255]

/-- SHA-256 of a byte string, as a 32-byte digest.  This is the function
computed by Python's `hashlib.sha256(...).digest()`. -/
def sha256 (msg : List Nat) : List Nat :=
  ((chunks64 (shaPad msg)).foldl processChunk shaH0).flatMap wordBytes

/-! ## Phase index and slice (`models.py`) -/

/-- `models.PhaseIndex`: the coordinate of one phase in the migration
history.  Hashes are 32-byte digests, kept as byte lists. -/
structure PhaseIndex where
  revision : Nat
  migration_hash : List Nat
  schema_hash : List Nat
  pre_deploy : Bool
  change : Nat
  phase : Nat
deriving DecidableEq, Repr

/-- `PhaseIndex.sortkey`: `(revision, 0 if pre_deploy else 1, change, phase)`. -/
def PhaseIndex.sortkey (i : PhaseIndex) : Nat × Nat × Nat × Nat :=
  (i.revision, if i.pre_deploy then 0 else 1, i.change, i.phase)

/-- Python's lexicographic `>` on 4-tuples of integers, used by
`PhaseIndex.__gt__` through `self.sortkey > other.sortkey`. -/
def keyGt : Nat × Nat × Nat × Nat → Nat × Nat × Nat × Nat → Bool
  | (a1, a2, a3, a4), (b1, b2, b3, b4) =>
      decide (a1 > b1) || (decide (a1 = b1) && (decide (a2 > b2) || (decide (a2 = b2) &&
        (decide (a3 > b3) || (decide (a3 = b3) && decide (a4 > b4))))))

/-- `PhaseIndex.__gt__`. -/
def PhaseIndex.gt (a b : PhaseIndex) : Bool := keyGt a.sortkey b.sortkey

/-- `a < b` on `PhaseIndex`.  The Python class defines only `__gt__`, so the
interpreter resolves `a < b` through the reflected method `b.__gt__(a)`. -/
def PhaseIndex.lt (a b : PhaseIndex) : Bool := PhaseIndex.gt b a

/-- `models.PhaseSlice`: an optionally-bounded range over the index order.
`end` is a Lean keyword, so the field is named `end_`. -/
structure PhaseSlice where
  start : Option PhaseIndex := none
  start_inclusive : Bool := true
  end_ : Option PhaseIndex := none
  end_inclusive : Bool := false
deriving DecidableEq, Repr

/-- `PhaseSlice.__contains__`.  Python's dataclass `==` compares all six
fields, embedded here as decidable structural equality. -/
def PhaseSlice.contains (s : PhaseSlice) (item : PhaseIndex) : Bool :=
  (match s.start with
   | some st => !(st.gt item || (!s.start_inclusive && decide (st = item)))
   | none => true) &&
  (match s.end_ with
   | some en => !(en.lt item || (!s.end_inclusive && decide (en = item)))
   | none => true)

/-! ## Migration documents and revisions (`models.py`)

`Change` and `Phase` live in `migrator/changes.py`, which is not part of
the sources provided; per the spec (§6) a Change exposes an ordered list
of opaque Phases through `change.inner.phases`, and nothing else about
them is consumed by this layer. -/

/-- Modelled from the spec: `changes.Phase`, an opaque unit of work. -/
structure Phase where
  tag : Nat
deriving DecidableEq, Repr

/-- Modelled from the spec: the payload of a `changes.Change`, exposing the
ordered phase list. -/
structure ChangeInner where
  phases : List Phase
deriving DecidableEq, Repr

/-- Modelled from the spec: `changes.Change`, whose `inner` carries the
ordered list of phases. -/
structure Change where
  inner : ChangeInner
deriving DecidableEq, Repr

/-- `models.Migration`: a parsed migration document. -/
structure Migration where
  message : String
  pre_deploy : List Change := []
  post_deploy : List Change := []
deriving DecidableEq, Repr

/-- `Migration.phases(index)`: enumerate pre-deploy changes then post-deploy
changes, and each change's phases, rebuilding the index with
`dataclasses.replace`.  Note that the pre-deploy loop replaces only
`change` and `phase`, while the post-deploy loop also sets
`pre_deploy=False`. -/
def Migration.phases (m : Migration) (index : PhaseIndex) :
    List (PhaseIndex × Change × Phase) :=
  (m.pre_deploy.enum.flatMap fun ic =>
    ic.2.inner.phases.enum.map fun jp =>
      ({ index with change := ic.1, phase := jp.1 }, ic.2, jp.2)) ++
  (m.post_deploy.enum.flatMap fun ic =>
    ic.2.inner.phases.enum.map fun jp =>
      ({ index with pre_deploy := false, change := ic.1, phase := jp.1 }, ic.2, jp.2))

/-- `models.Revision`: one migration unit.  The source stores the raw file
texts and derives the document by YAML-parsing `migration_text` (the parser
is an external collaborator), so the parsed document is carried as a field
here; texts are byte strings. -/
structure Revision where
  number : Nat
  migration_text : List Nat
  schema_text : List Nat
  migration : Migration
deriving DecidableEq, Repr

/-- `Revision.migration_hash`: SHA-256 of the migration file text. -/
def Revision.migration_hash (r : Revision) : List Nat := sha256 r.migration_text

/-- `Revision.schema_hash`: SHA-256 of the schema snapshot text. -/
def Revision.schema_hash (r : Revision) : List Nat := sha256 r.schema_text

/-- `Revision.first_index`. -/
def Revision.first_index (r : Revision) : PhaseIndex :=
  ⟨r.number, r.migration_hash, r.schema_hash, true, 0, 0⟩

/-- `Revision.phases()`. -/
def Revision.phases (r : Revision) : List (PhaseIndex × Change × Phase) :=
  r.migration.phases r.first_index

/-- `Revision.get_phases(slice)`: skip the whole revision when it lies
outside the slice's revision bounds, otherwise keep the phases whose index
the slice contains. -/
def Revision.get_phases (r : Revision) (slice : PhaseSlice) :
    List (PhaseIndex × Change × Phase) :=
  if (match slice.start with
      | some st => decide (r.number < st.revision)
      | none => false) then []
  else if (match slice.end_ with
      | some en => decide (en.revision < r.number)
      | none => false) then []
  else r.phases.filter fun t => slice.contains t.1

/-- The assertion in `RevisionList.__init__`:
`list(self.keys()) == list(range(1, len(self) + 1))`.  A Python dict holds
its keys in insertion order, so the argument is that key list. -/
def revisionListKeysOk (ks : List Nat) : Bool := ks == List.range' 1 ks.length

/-- `RevisionList.get_phases(slice)`: iterate the revisions in ascending
number order (the source sorts its items; the argument here is that sorted
list), skipping revisions outside the slice's revision bounds. -/
def revisionListGetPhases (revs : List Revision) (slice : PhaseSlice) :
    List (PhaseIndex × Revision × Change × Phase) :=
  revs.flatMap fun r =>
    if (match slice.start with
        | some st => decide (r.number < st.revision)
        | none => false) then []
    else if (match slice.end_ with
        | some en => decide (en.revision < r.number)
        | none => false) then []
    else (r.get_phases slice).map fun t => (t.1, r, t.2.1, t.2.2)

/-! ## The audit ledger (`db.py`)

The `migration_audit` table of `SCHEMA_DDL`, its two `CHECK` constraints,
and the partial unique index

    CREATE UNIQUE INDEX migration_audit_unique ON migration_audit ((1))
      WHERE (finished_at IS NULL OR
             (revert_started_at IS NOT NULL AND revert_finished_at IS NULL));

are embedded as a state machine over a list of rows.  A unique index over
the constant key `(1)` filtered by a predicate admits at most one row
satisfying the predicate, so a write is accepted exactly when every row
passes the `CHECK` constraints and at most one row of the resulting table
satisfies the filter predicate.  Each `Database.audit_*` method runs as one
transactional statement: on any error the state is unchanged.  Timestamps
(`now()`) and the `SERIAL` id are modelled by counters.

Every audit statement interpolates `AuditMapper.columns()` into its
`SELECT` / `RETURNING` list.  That list is built from the fields of the
`MigrationAudit` dataclass (`models.py`), which still carries an
`is_revert` field, while the `migration_audit` table of `SCHEMA_DDL` has
no such column (it has `revert_started_at` / `revert_finished_at`).  A
statement naming a column the table does not have fails with an
undefined-column error before doing anything, so the operations are
parametrised by the column list their statement names, checked against
the table's columns; the source operations pass the mapper's stale list,
and separately-named `_fixed` variants pass the corrected list, giving
the semantics the `SCHEMA_DDL` layout dictates for the same statements. -/

/-- A row of `migration_audit` as laid out in `SCHEMA_DDL`. -/
structure AuditRow where
  id : Nat
  started_at : Nat
  finished_at : Option Nat
  revert_started_at : Option Nat
  revert_finished_at : Option Nat
  index : PhaseIndex
deriving DecidableEq, Repr

/-- The filter predicate of the `migration_audit_unique` partial index:
the row's phase transition is still in flight. -/
def inFlight (r : AuditRow) : Bool :=
  r.finished_at.isNone || (r.revert_started_at.isSome && r.revert_finished_at.isNone)

/-- The two `CHECK` constraints of `migration_audit`. -/
def checkRow (r : AuditRow) : Bool :=
  (r.revert_started_at.isNone || r.finished_at.isSome) &&
  (r.revert_finished_at.isNone || r.revert_started_at.isSome)

/-- Errors a statement can raise: naming a column the table does not have,
a violation of the partial unique index, a violation of a `CHECK`
constraint, or `Database.one` failing to unpack a single row (zero or
several rows matched). -/
inductive DbError where
  | undefinedColumn
  | uniqueViolation
  | checkViolation
  | oneError
deriving DecidableEq, Repr

/-- Does a written table violate a constraint? -/
def writeViolation (rows : List AuditRow) : Option DbError :=
  if !rows.all checkRow then some .checkViolation
  else if !decide ((rows.filter inFlight).length ≤ 1) then some .uniqueViolation
  else none

/-- The columns of `migration_audit` as created by `SCHEMA_DDL`. -/
def migrationAuditColumns : List String :=
  ["id", "revision", "migration_hash", "schema_hash", "pre_deploy", "change",
   "phase", "started_at", "finished_at", "revert_started_at", "revert_finished_at"]

/-- `AuditMapper._my_fields`: the fields of the `MigrationAudit` dataclass
minus the trailing `index` — `id, started_at, finished_at, is_revert`.
The dataclass was never updated to the table layout: `is_revert` is not a
column of `migration_audit`. -/
def auditMapperMyFields : List String :=
  ["id", "started_at", "finished_at", "is_revert"]

/-- `AuditMapper._index_fields`: the fields of the `PhaseIndex` dataclass. -/
def auditMapperIndexFields : List String :=
  ["revision", "migration_hash", "schema_hash", "pre_deploy", "change", "phase"]

/-- `AuditMapper.fields = _my_fields + _index_fields`: the list
`Mapper.columns()` interpolates into every audit statement. -/
def auditMapperFields : List String :=
  auditMapperMyFields ++ auditMapperIndexFields

/-- The column list of the audit statements with the stale `is_revert`
replaced by the columns the table actually has: the repair the
`SCHEMA_DDL` layout dictates, used by the `_fixed` operation variants. -/
def auditFixedFields : List String :=
  ["id", "started_at", "finished_at", "revert_started_at", "revert_finished_at"] ++
    auditMapperIndexFields

/-- A statement fails before executing when its column list names a column
the table does not have (an undefined-column error). -/
def namesUndefinedColumn (cols tableCols : List String) : Bool :=
  cols.any fun c => !(tableCols.contains c)

/-- The `migration_audit` table plus the `SERIAL` id counter and the clock
supplying `now()`. -/
structure LedgerState where
  rows : List AuditRow
  next_id : Nat
  clock : Nat
deriving DecidableEq, Repr

/-- The empty ledger: no audit rows, `SERIAL` ids starting at 1. -/
def LedgerState.init : LedgerState := ⟨[], 1, 0⟩

/-- The `INSERT ... RETURNING` behind `audit_phase_start`, parametrised by
the column list its `RETURNING` clause names: if that list names a column
absent from `migration_audit`, the statement fails before inserting;
otherwise it inserts a fresh row for `index` with `started_at = now()`
and all other timestamps null, subject to the table constraints, and
returns the created row. -/
def auditInsert (returning : List String) (s : LedgerState) (index : PhaseIndex) :
    Except DbError (LedgerState × AuditRow) :=
  if namesUndefinedColumn returning migrationAuditColumns then .error .undefinedColumn
  else
    let row : AuditRow := ⟨s.next_id, s.clock, none, none, none, index⟩
    let rows' := s.rows ++ [row]
    match writeViolation rows' with
    | some e => .error e
    | none => .ok ({ rows := rows', next_id := s.next_id + 1, clock := s.clock + 1 }, row)

/-- `Database.audit_phase_start(index)`: `self.insert(AuditMapper, index)`.
The `RETURNING` list is `AuditMapper.columns()`, which names `is_revert` —
not a column of `migration_audit` — so the statement always fails with an
undefined-column error and inserts nothing. -/
def audit_phase_start (s : LedgerState) (index : PhaseIndex) :
    Except DbError (LedgerState × AuditRow) :=
  auditInsert auditMapperFields s index

/-- The same `INSERT` with the corrected column list: the behaviour the
`SCHEMA_DDL` layout dictates for this statement. -/
def audit_phase_start_fixed (s : LedgerState) (index : PhaseIndex) :
    Except DbError (LedgerState × AuditRow) :=
  auditInsert auditFixedFields s index

/-- `UPDATE migration_audit SET ... WHERE ... RETURNING ...` as one
transactional statement, parametrised by the `RETURNING` column list: fail
if it names a column the table does not have; otherwise rewrite every
matching row and return the list of updated rows, aborting if the written
table violates a constraint. -/
def runUpdate (returning : List String) (s : LedgerState)
    (pred : AuditRow → Bool) (f : AuditRow → AuditRow) :
    Except DbError (LedgerState × List AuditRow) :=
  if namesUndefinedColumn returning migrationAuditColumns then .error .undefinedColumn
  else
    let rows' := s.rows.map fun r => if pred r then f r else r
    let updated := (s.rows.filter pred).map f
    match writeViolation rows' with
    | some e => .error e
    | none => .ok ({ s with rows := rows', clock := s.clock + 1 }, updated)

/-- `Database.one`: unpack a single returned row, an error otherwise. -/
def one (l : List AuditRow) : Except DbError AuditRow :=
  match l with
  | [r] => .ok r
  | _ => .error .oneError

/-- The shape shared by `audit_phase_end`, `audit_phase_revert_start` and
`audit_phase_revert_end`: run the conditional `UPDATE`, then `one` on the
returned rows. -/
def gatedOp (returning : List String) (s : LedgerState)
    (pred : AuditRow → Bool) (f : AuditRow → AuditRow) :
    Except DbError (LedgerState × AuditRow) := do
  let su ← runUpdate returning s pred f
  let row ← one su.2
  .ok (su.1, row)

/-- `Database.audit_phase_end(audit)`:
`SET finished_at = now() WHERE id = %s AND finished_at IS NULL RETURNING
{AuditMapper.columns()}`, then `one` on the returned rows.  The
`RETURNING` list names the nonexistent `is_revert` column, so the
statement always fails and stamps nothing. -/
def audit_phase_end (s : LedgerState) (audit_id : Nat) :
    Except DbError (LedgerState × AuditRow) :=
  gatedOp auditMapperFields s (fun r => r.id.beq audit_id && r.finished_at.isNone)
    (fun r => { r with finished_at := some s.clock })

/-- `audit_phase_end` with the corrected column list. -/
def audit_phase_end_fixed (s : LedgerState) (audit_id : Nat) :
    Except DbError (LedgerState × AuditRow) :=
  gatedOp auditFixedFields s (fun r => r.id.beq audit_id && r.finished_at.isNone)
    (fun r => { r with finished_at := some s.clock })

/-- `Database.audit_phase_revert_start(audit)`:
`SET revert_started_at = now() WHERE id = %s AND revert_started_at IS
NULL RETURNING {AuditMapper.columns()}`, then `one` on the returned rows;
the `RETURNING` list names the nonexistent `is_revert` column. -/
def audit_phase_revert_start (s : LedgerState) (audit_id : Nat) :
    Except DbError (LedgerState × AuditRow) :=
  gatedOp auditMapperFields s (fun r => r.id.beq audit_id && r.revert_started_at.isNone)
    (fun r => { r with revert_started_at := some s.clock })

/-- `audit_phase_revert_start` with the corrected column list. -/
def audit_phase_revert_start_fixed (s : LedgerState) (audit_id : Nat) :
    Except DbError (LedgerState × AuditRow) :=
  gatedOp auditFixedFields s (fun r => r.id.beq audit_id && r.revert_started_at.isNone)
    (fun r => { r with revert_started_at := some s.clock })

/-- `Database.audit_phase_revert_end(audit)`:
`SET revert_finished_at = now() WHERE id = %s AND revert_finished_at IS
NULL RETURNING {AuditMapper.columns()}`, then `one` on the returned rows;
the `RETURNING` list names the nonexistent `is_revert` column. -/
def audit_phase_revert_end (s : LedgerState) (audit_id : Nat) :
    Except DbError (LedgerState × AuditRow) :=
  gatedOp auditMapperFields s (fun r => r.id.beq audit_id && r.revert_finished_at.isNone)
    (fun r => { r with revert_finished_at := some s.clock })

/-- `audit_phase_revert_end` with the corrected column list. -/
def audit_phase_revert_end_fixed (s : LedgerState) (audit_id : Nat) :
    Except DbError (LedgerState × AuditRow) :=
  gatedOp auditFixedFields s (fun r => r.id.beq audit_id && r.revert_finished_at.isNone)
    (fun r => { r with revert_finished_at := some s.clock })

/-- One call against the audit ledger. -/
inductive LedgerOp where
  | start (index : PhaseIndex)
  | finish (audit_id : Nat)
  | revert_start (audit_id : Nat)
  | revert_finish (audit_id : Nat)

/-- Dispatch one ledger call to the `Database` methods as written. -/
def applyOp (s : LedgerState) : LedgerOp → Except DbError (LedgerState × AuditRow)
  | .start index => audit_phase_start s index
  | .finish i => audit_phase_end s i
  | .revert_start i => audit_phase_revert_start s i
  | .revert_finish i => audit_phase_revert_end s i

/-- Run one ledger call: commit its state on success, keep the previous
state when it errors (the scoped transaction rolls back). -/
def runOp (s : LedgerState) (op : LedgerOp) : LedgerState :=
  match applyOp s op with
  | .ok su => su.1
  | .error _ => s

/-- The ledger state after a sequence of calls against a fresh install. -/
def runOps (ops : List LedgerOp) : LedgerState :=
  ops.foldl runOp LedgerState.init

/-- Dispatch one ledger call to the column-corrected statements. -/
def applyOpFixed (s : LedgerState) : LedgerOp → Except DbError (LedgerState × AuditRow)
  | .start index => audit_phase_start_fixed s index
  | .finish i => audit_phase_end_fixed s i
  | .revert_start i => audit_phase_revert_start_fixed s i
  | .revert_finish i => audit_phase_revert_end_fixed s i

/-- Run one column-corrected ledger call, committing on success and
keeping the previous state on error. -/
def runOpFixed (s : LedgerState) (op : LedgerOp) : LedgerState :=
  match applyOpFixed s op with
  | .ok su => su.1
  | .error _ => s

/-- The ledger state after a sequence of column-corrected calls against a
fresh install. -/
def runOpsFixed (ops : List LedgerOp) : LedgerState :=
  ops.foldl runOpFixed LedgerState.init

/-! ## The revision registry (`db.py`) -/

/-- A row of the `migrations` table of `SCHEMA_DDL`. -/
structure MigrationRow where
  revision : Nat
  migration_hash : List Nat
  schema_hash : List Nat
  file : List Nat
  is_deleted : Bool
deriving DecidableEq, Repr

/-- Python exceptions `Database.upsert` can raise. -/
inductive PyError where
  | indexError
  | assertionError
deriving DecidableEq, Repr

/-- `Database.upsert(revision)`:

    INSERT INTO migrations (revision, migration_hash, schema_hash, file, is_deleted)
    VALUES (%s, %s, %s, %s, TRUE)
    ON CONFLICT DO NOTHING
    RETURNING revision, migration_hash, schema_hash, file, is_deleted

followed by `assert result[0][3] == revision.migration_text`.

With no conflict target, the insert conflicts exactly when a row with the
same primary key `(revision, migration_hash, schema_hash)` exists (the
partial unique index on `revision WHERE NOT is_deleted` cannot conflict
with a row inserted with `is_deleted = TRUE`); `RETURNING` yields only
actually-inserted rows, so a conflicting call returns no rows.  The
statement runs in autocommit mode, so the insert persists even when the
subsequent assertion raises; the result pairs the table with the raised
exception, if any (`result[0]` on an empty list is an `IndexError`). -/
def upsert (tbl : List MigrationRow) (r : Revision) :
    List MigrationRow × Option PyError :=
  let newRow : MigrationRow :=
    ⟨r.number, r.migration_hash, r.schema_hash, r.migration_text, true⟩
  let conflict := tbl.any fun row =>
    row.revision.beq newRow.revision &&
    decide (row.migration_hash = newRow.migration_hash) &&
    decide (row.schema_hash = newRow.schema_hash)
  let result : List MigrationRow := if conflict then [] else [newRow]
  let tbl' := if conflict then tbl else tbl ++ [newRow]
  match result.head? with
  | none => (tbl', some .indexError)
  | some row =>
      if decide (row.file = r.migration_text) then (tbl', none)
      else (tbl', some .assertionError)

/-! ## Derived notions and fixtures used by the statements -/

/-- The number of in-flight rows of a ledger state: the rows the
`migration_audit_unique` partial index ranges over. -/
def countInFlight (s : LedgerState) : Nat := (s.rows.filter inFlight).length

/-- The enumeration exactly as the claim words it: one index per phase with
`change`/`phase`/`pre_deploy` set to the enumerated position and stage
(`true` for the pre-deploy stage, `false` for the post-deploy stage) and
`revision`/`migration_hash`/`schema_hash` carried from the starting index. -/
def phasesByClaim (m : Migration) (index : PhaseIndex) :
    List (PhaseIndex × Change × Phase) :=
  (m.pre_deploy.enum.flatMap fun ic =>
    ic.2.inner.phases.enum.map fun jp =>
      (PhaseIndex.mk index.revision index.migration_hash index.schema_hash
        true ic.1 jp.1, ic.2, jp.2)) ++
  (m.post_deploy.enum.flatMap fun ic =>
    ic.2.inner.phases.enum.map fun jp =>
      (PhaseIndex.mk index.revision index.migration_hash index.schema_hash
        false ic.1 jp.1, ic.2, jp.2))

/-- The amended enumeration: as `phasesByClaim`, except that the pre-deploy
stage carries `pre_deploy` through from the starting index instead of
setting it to `true` (matching the `dataclasses.replace` call in the
source, which does not touch `pre_deploy` in the pre-deploy loop). -/
def phasesAmended (m : Migration) (index : PhaseIndex) :
    List (PhaseIndex × Change × Phase) :=
  (m.pre_deploy.enum.flatMap fun ic =>
    ic.2.inner.phases.enum.map fun jp =>
      (PhaseIndex.mk index.revision index.migration_hash index.schema_hash
        index.pre_deploy ic.1 jp.1, ic.2, jp.2)) ++
  (m.post_deploy.enum.flatMap fun ic =>
    ic.2.inner.phases.enum.map fun jp =>
      (PhaseIndex.mk index.revision index.migration_hash index.schema_hash
        false ic.1 jp.1, ic.2, jp.2))

/-- Fixture: revision 1 whose migration file is the single byte `a` and
whose schema snapshot is the single byte `s`. -/
def revA : Revision := ⟨1, [97], [115], ⟨"m", [], []⟩⟩

/-- Fixture: revision 1 re-delivered with a different single-byte file `b`. -/
def revB : Revision := ⟨1, [98], [115], ⟨"m", [], []⟩⟩

/-- The `migrations` row `Database.upsert` writes for `revA`. -/
def rowA : MigrationRow := ⟨1, sha256 [97], sha256 [115], [97], true⟩

/-- The `migrations` row `Database.upsert` writes for `revB`. -/
def rowB : MigrationRow := ⟨1, sha256 [98], sha256 [115], [98], true⟩

/-- Fixture: the first pre-deploy phase index of revision 1. -/
def idxPre : PhaseIndex := ⟨1, [], [], true, 0, 0⟩

/-- Fixture: the first post-deploy phase index of revision 1. -/
def idxPost : PhaseIndex := ⟨1, [], [], false, 0, 0⟩

/-- Fixture: the first pre-deploy phase index of revision 2. -/
def idxC : PhaseIndex := ⟨2, [], [], true, 0, 0⟩

/-- Fixture: a change with a single phase. -/
def chEx : Change := ⟨⟨[⟨0⟩]⟩⟩

/-- Fixture: a migration document with one pre-deploy change and no
post-deploy changes. -/
def mEx : Migration := ⟨"m", [chEx], []⟩

/-- Fixture: the audit row created by starting a phase on a fresh ledger. -/
def rowStarted : AuditRow := ⟨1, 0, none, none, none, idxPre⟩

/-- Fixture: the ledger after that start. -/
def sStarted : LedgerState := ⟨[rowStarted], 2, 1⟩

/-- Fixture: the row after finishing it. -/
def rowFinished : AuditRow := ⟨1, 0, some 1, none, none, idxPre⟩

/-- Fixture: the ledger after the finish. -/
def sFinished : LedgerState := ⟨[rowFinished], 2, 2⟩

/-- Fixture: the row after starting its revert. -/
def rowRevStarted : AuditRow := ⟨1, 0, some 1, some 2, none, idxPre⟩

/-- Fixture: the ledger after the revert start. -/
def sRevStarted : LedgerState := ⟨[rowRevStarted], 2, 3⟩

/-- Fixture: the row after finishing its revert. -/
def rowRevFinished : AuditRow := ⟨1, 0, some 1, some 2, some 3, idxPre⟩

/-- Fixture: the ledger after the revert finish. -/
def sRevFinished : LedgerState := ⟨[rowRevFinished], 2, 4⟩

/-! ## Lemmas about the index order -/

theorem keyGt_iff (a b : Nat × Nat × Nat × Nat) :
    keyGt a b = true ↔
      b.1 < a.1 ∨ (a.1 = b.1 ∧ (b.2.1 < a.2.1 ∨ (a.2.1 = b.2.1 ∧
        (b.2.2.1 < a.2.2.1 ∨ (a.2.2.1 = b.2.2.1 ∧ b.2.2.2 < a.2.2.2))))) := by
  obtain ⟨a1, a2, a3, a4⟩ := a
  obtain ⟨b1, b2, b3, b4⟩ := b
  simp [keyGt]

theorem keyGt_self (k : Nat × Nat × Nat × Nat) : keyGt k k = false := by
  rw [← Bool.not_eq_true, keyGt_iff]
  omega

theorem keyGt_asymm (a b : Nat × Nat × Nat × Nat) (h : keyGt a b = true) :
    keyGt b a = false := by
  rw [keyGt_iff] at h
  rw [← Bool.not_eq_true, keyGt_iff]
  omega

theorem keyGt_trans (a b c : Nat × Nat × Nat × Nat) (h1 : keyGt a b = true)
    (h2 : keyGt b c = true) : keyGt a c = true := by
  rw [keyGt_iff] at h1 h2 ⊢
  omega

theorem keyGt_conn (a b : Nat × Nat × Nat × Nat) (h1 : keyGt a b = false)
    (h2 : keyGt b a = false) : a = b := by
  rw [← Bool.not_eq_true, keyGt_iff] at h1 h2
  obtain ⟨a1, a2, a3, a4⟩ := a
  obtain ⟨b1, b2, b3, b4⟩ := b
  simp_all [Prod.ext_iff]
  omega

theorem keyGt_of_fst_lt (a b : Nat × Nat × Nat × Nat) (h : b.1 < a.1) :
    keyGt a b = true := by
  rw [keyGt_iff]
  omega

theorem gt_ne (a b : PhaseIndex) (h : PhaseIndex.gt a b = true) : a ≠ b := by
  intro he
  subst he
  rw [PhaseIndex.gt, keyGt_self a.sortkey] at h
  cases h

theorem eq_of_sortkey_eq (a b : PhaseIndex)
    (hm : a.migration_hash = b.migration_hash) (hs : a.schema_hash = b.schema_hash)
    (hk : a.sortkey = b.sortkey) : a = b := by
  obtain ⟨r, mh, sh, pd, c, p⟩ := a
  obtain ⟨r', mh', sh', pd', c', p'⟩ := b
  simp only [PhaseIndex.sortkey, Prod.ext_iff] at hk
  cases pd <;> cases pd' <;> simp_all

/-! ## Lemmas about the audit ledger -/

theorem writeViolation_none_iff (rows : List AuditRow) :
    writeViolation rows = none ↔
      (rows.all checkRow = true ∧ (rows.filter inFlight).length ≤ 1) := by
  unfold writeViolation
  split
  · simp_all
  · split <;> simp_all

theorem runUpdate_ok (returning : List String) (s : LedgerState)
    (pred : AuditRow → Bool) (f : AuditRow → AuditRow)
    (s' : LedgerState) (updated : List AuditRow)
    (h : runUpdate returning s pred f = .ok (s', updated)) :
    s'.rows = s.rows.map (fun r => if pred r then f r else r) ∧
    updated = (s.rows.filter pred).map f ∧
    s'.clock = s.clock + 1 ∧ s'.next_id = s.next_id ∧
    writeViolation s'.rows = none ∧
    namesUndefinedColumn returning migrationAuditColumns = false := by
  simp only [runUpdate] at h
  split at h
  · exact Except.noConfusion h
  · rename_i hcol
    split at h
    · exact Except.noConfusion h
    · rename_i heq
      rw [Except.ok.injEq, Prod.mk.injEq] at h
      obtain ⟨h1, h2⟩ := h
      subst h1
      subst h2
      exact ⟨rfl, rfl, rfl, rfl, heq, Bool.eq_false_iff.mpr hcol⟩

theorem one_ok (l : List AuditRow) (r : AuditRow) (h : one l = .ok r) :
    l = [r] := by
  cases l with
  | nil => exact Except.noConfusion h
  | cons x t =>
    cases t with
    | nil =>
      simp only [one] at h
      rw [Except.ok.injEq] at h
      rw [h]
    | cons y t2 => exact Except.noConfusion h

theorem bind_ok {ε α β : Type} (x : Except ε α) (g : α → Except ε β) (b : β)
    (h : (x >>= g) = .ok b) : ∃ a, x = .ok a ∧ g a = .ok b := by
  cases x with
  | error e => exact Except.noConfusion h
  | ok a => exact ⟨a, rfl, h⟩

theorem gatedOp_ok (returning : List String) (s : LedgerState)
    (pred : AuditRow → Bool) (f : AuditRow → AuditRow)
    (s₁ : LedgerState) (r : AuditRow)
    (h : gatedOp returning s pred f = .ok (s₁, r)) :
    s₁.rows = s.rows.map (fun x => if pred x then f x else x) ∧
    (s.rows.filter pred).map f = [r] ∧
    s₁.clock = s.clock + 1 ∧ s₁.next_id = s.next_id ∧
    writeViolation s₁.rows = none ∧
    namesUndefinedColumn returning migrationAuditColumns = false := by
  simp only [gatedOp] at h
  obtain ⟨su, hru, h2⟩ := bind_ok _ _ _ h
  obtain ⟨row, hone, h3⟩ := bind_ok _ _ _ h2
  obtain ⟨s', updated⟩ := su
  rw [Except.ok.injEq, Prod.mk.injEq] at h3
  obtain ⟨h4, h5⟩ := h3
  subst h4
  subst h5
  obtain ⟨ha, hb, hc, hd, he, hf⟩ := runUpdate_ok returning s pred f s' updated hru
  have hupd : updated = [row] := one_ok updated row hone
  rw [hupd] at hb
  exact ⟨ha, hb.symm, hc, hd, he, hf⟩

theorem gatedOp_second_call (returning : List String) (s s₁ : LedgerState)
    (pred : AuditRow → Bool) (f f₂ : AuditRow → AuditRow) (r : AuditRow)
    (hpf : ∀ x, pred (f x) = false)
    (h : gatedOp returning s pred f = .ok (s₁, r)) :
    (∃ y, pred y = true ∧ y ∈ s.rows ∧ r = f y) ∧
    gatedOp returning s₁ pred f₂ = .error .oneError := by
  obtain ⟨hrows, hupd, hclk, hnid, hwv, hcol⟩ := gatedOp_ok returning s pred f s₁ r h
  have hy : ∃ y, pred y = true ∧ y ∈ s.rows ∧ r = f y := by
    have hr : r ∈ (s.rows.filter pred).map f := by rw [hupd]; exact List.mem_singleton.mpr rfl
    obtain ⟨y, hy, hfy⟩ := List.mem_map.mp hr
    obtain ⟨hmem, hpy⟩ := List.mem_filter.mp hy
    exact ⟨y, hpy, hmem, hfy.symm⟩
  have hnone : ∀ x ∈ s₁.rows, pred x = false := by
    intro x hx
    rw [hrows] at hx
    obtain ⟨y, _, hfy⟩ := List.mem_map.mp hx
    by_cases hpy : pred y = true
    · rw [← hfy, if_pos hpy]
      exact hpf y
    · rw [← hfy, if_neg hpy]
      simp at hpy
      exact hpy
  have hmapid : s₁.rows.map (fun x => if pred x then f₂ x else x) = s₁.rows := by
    have hcongr : ∀ x ∈ s₁.rows, (if pred x then f₂ x else x) = id x := by
      intro x hx
      simp [hnone x hx]
    rw [List.map_congr_left hcongr, List.map_id]
  have hfil : s₁.rows.filter pred = [] := by
    rw [List.filter_eq_nil_iff]
    intro a ha
    simp [hnone a ha]
  refine ⟨hy, ?_⟩
  simp only [gatedOp, runUpdate, bind, Except.bind]
  rw [hcol, hmapid, hfil, hwv]
  simp [one]

theorem auditInsert_ok (returning : List String) (s : LedgerState)
    (index : PhaseIndex) (su : LedgerState × AuditRow)
    (h : auditInsert returning s index = .ok su) :
    su.1.rows = s.rows ++ [⟨s.next_id, s.clock, none, none, none, index⟩] ∧
    writeViolation su.1.rows = none ∧
    namesUndefinedColumn returning migrationAuditColumns = false := by
  simp only [auditInsert] at h
  split at h
  · exact Except.noConfusion h
  · rename_i hcol
    split at h
    · exact Except.noConfusion h
    · rename_i heq
      rw [Except.ok.injEq] at h
      subst h
      exact ⟨rfl, heq, Bool.eq_false_iff.mpr hcol⟩

theorem runOpFixed_inv (s : LedgerState) (op : LedgerOp)
    (h1 : s.rows.all checkRow = true) (h2 : countInFlight s ≤ 1) :
    (runOpFixed s op).rows.all checkRow = true ∧
    countInFlight (runOpFixed s op) ≤ 1 := by
  unfold runOpFixed
  cases happ : applyOpFixed s op with
  | error e => exact ⟨h1, h2⟩
  | ok su =>
    have hwv : writeViolation su.1.rows = none := by
      cases op with
      | start index => exact (auditInsert_ok auditFixedFields s index su happ).2.1
      | finish i =>
        obtain ⟨s', r'⟩ := su
        exact (gatedOp_ok auditFixedFields s _ _ s' r' happ).2.2.2.2.1
      | revert_start i =>
        obtain ⟨s', r'⟩ := su
        exact (gatedOp_ok auditFixedFields s _ _ s' r' happ).2.2.2.2.1
      | revert_finish i =>
        obtain ⟨s', r'⟩ := su
        exact (gatedOp_ok auditFixedFields s _ _ s' r' happ).2.2.2.2.1
    have hc := (writeViolation_none_iff su.1.rows).mp hwv
    exact ⟨hc.1, hc.2⟩

theorem runOpsFixed_inv (ops : List LedgerOp) :
    (runOpsFixed ops).rows.all checkRow = true ∧
    countInFlight (runOpsFixed ops) ≤ 1 := by
  unfold runOpsFixed
  have hgen : ∀ s : LedgerState, s.rows.all checkRow = true → countInFlight s ≤ 1 →
      (ops.foldl runOpFixed s).rows.all checkRow = true ∧
      countInFlight (ops.foldl runOpFixed s) ≤ 1 := by
    induction ops with
    | nil => exact fun s h1 h2 => ⟨h1, h2⟩
    | cons op rest ih =>
      intro s h1 h2
      obtain ⟨h1', h2'⟩ := runOpFixed_inv s op h1 h2
      exact ih (runOpFixed s op) h1' h2'
  exact hgen LedgerState.init rfl (by decide)

theorem start_conflict_fixed (s : LedgerState) (index : PhaseIndex)
    (hck : s.rows.all checkRow = true) (hany : s.rows.any inFlight = true) :
    audit_phase_start_fixed s index = .error .uniqueViolation := by
  have hlen : 1 ≤ (s.rows.filter inFlight).length := by
    obtain ⟨x, hx, hxf⟩ := List.any_eq_true.mp hany
    have hmem : x ∈ s.rows.filter inFlight := List.mem_filter.mpr ⟨hx, hxf⟩
    have hne : s.rows.filter inFlight ≠ [] := List.ne_nil_of_mem hmem
    have hz : (s.rows.filter inFlight).length ≠ 0 :=
      fun hl => hne (List.length_eq_zero.mp hl)
    omega
  have hwv : writeViolation
      (s.rows ++ [⟨s.next_id, s.clock, none, none, none, index⟩]) =
      some .uniqueViolation := by
    have hsingle : List.filter inFlight
        [(⟨s.next_id, s.clock, none, none, none, index⟩ : AuditRow)] =
        [⟨s.next_id, s.clock, none, none, none, index⟩] := rfl
    have hall : (s.rows ++ [(⟨s.next_id, s.clock, none, none, none, index⟩ : AuditRow)]).all
        checkRow = true := by
      simp [List.all_append, hck]
      rfl
    have hlen2 : ((s.rows ++ [(⟨s.next_id, s.clock, none, none, none,
        index⟩ : AuditRow)]).filter inFlight).length =
        (s.rows.filter inFlight).length + 1 := by
      rw [List.filter_append, hsingle, List.length_append, List.length_singleton]
    have hdec : decide (((s.rows ++ [(⟨s.next_id, s.clock, none, none, none,
        index⟩ : AuditRow)]).filter inFlight).length ≤ 1) = false := by
      rw [decide_eq_false_iff_not, hlen2]
      omega
    unfold writeViolation
    rw [hall, hdec]
    rfl
  have hcol : namesUndefinedColumn auditFixedFields migrationAuditColumns = false := by
    decide
  simp only [audit_phase_start_fixed, auditInsert]
  rw [hcol, hwv]
  rfl

theorem runOp_error (s : LedgerState) (op : LedgerOp) (e : DbError)
    (h : applyOp s op = .error e) : runOp s op = s := by
  unfold runOp
  rw [h]

theorem runOpFixed_error (s : LedgerState) (op : LedgerOp) (e : DbError)
    (h : applyOpFixed s op = .error e) : runOpFixed s op = s := by
  unfold runOpFixed
  rw [h]

theorem applyOp_undefined (s : LedgerState) (op : LedgerOp) :
    applyOp s op = .error .undefinedColumn := by
  cases op <;> rfl

theorem runOps_const (ops : List LedgerOp) : runOps ops = LedgerState.init := by
  unfold runOps
  induction ops with
  | nil => rfl
  | cons op rest ih =>
    rw [List.foldl_cons, runOp_error LedgerState.init op .undefinedColumn
      (applyOp_undefined LedgerState.init op)]
    exact ih

/-! ## The intended ledger semantics (column-corrected statements)

The following theorems are about the `_fixed` operations — the audit
statements with the mapper's stale `is_revert` removed from the column
list, which is the behaviour the `SCHEMA_DDL` table and its partial
unique index dictate.  They show that the claimed ledger semantics is
exactly what the corrected statements do. -/

theorem ledger_intended_single_inflight (ops : List LedgerOp) (index : PhaseIndex) :
    countInFlight (runOpsFixed ops) ≤ 1 ∧
    ((runOpsFixed ops).rows.any inFlight = true →
      applyOpFixed (runOpsFixed ops) (.start index) = .error .uniqueViolation ∧
      runOpFixed (runOpsFixed ops) (.start index) = runOpsFixed ops) := by
  obtain ⟨hck, hcnt⟩ := runOpsFixed_inv ops
  refine ⟨hcnt, fun hany => ?_⟩
  have herr : applyOpFixed (runOpsFixed ops) (.start index) = .error .uniqueViolation :=
    start_conflict_fixed (runOpsFixed ops) index hck hany
  exact ⟨herr, runOpFixed_error _ _ _ herr⟩

theorem ledger_intended_single_inflight_example :
    countInFlight (runOpsFixed [LedgerOp.start idxPre]) ≤ 1 ∧
    applyOpFixed (runOpsFixed [LedgerOp.start idxPre]) (.start idxPost) =
      .error .uniqueViolation ∧
    runOpFixed (runOpsFixed [LedgerOp.start idxPre]) (.start idxPost) =
      runOpsFixed [LedgerOp.start idxPre] :=
  ⟨(ledger_intended_single_inflight [LedgerOp.start idxPre] idxPost).1,
   (ledger_intended_single_inflight [LedgerOp.start idxPre] idxPost).2 (by decide)⟩

theorem ledger_intended_update_gating (s s₁ : LedgerState) (i : Nat) (r : AuditRow) :
    (audit_phase_end_fixed s i = .ok (s₁, r) →
      r.finished_at = some s.clock ∧
      audit_phase_end_fixed s₁ i = .error .oneError) ∧
    (audit_phase_revert_start_fixed s i = .ok (s₁, r) →
      r.revert_started_at = some s.clock ∧
      audit_phase_revert_start_fixed s₁ i = .error .oneError) ∧
    (audit_phase_revert_end_fixed s i = .ok (s₁, r) →
      r.revert_finished_at = some s.clock ∧
      audit_phase_revert_end_fixed s₁ i = .error .oneError) := by
  refine ⟨fun h => ?_, fun h => ?_, fun h => ?_⟩
  · obtain ⟨⟨y, hy, hmem, rfl⟩, hsecond⟩ :=
      gatedOp_second_call auditFixedFields s s₁ _ _
        (fun x => { x with finished_at := some s₁.clock }) r (fun x => by simp) h
    exact ⟨rfl, hsecond⟩
  · obtain ⟨⟨y, hy, hmem, rfl⟩, hsecond⟩ :=
      gatedOp_second_call auditFixedFields s s₁ _ _
        (fun x => { x with revert_started_at := some s₁.clock }) r (fun x => by simp) h
    exact ⟨rfl, hsecond⟩
  · obtain ⟨⟨y, hy, hmem, rfl⟩, hsecond⟩ :=
      gatedOp_second_call auditFixedFields s s₁ _ _
        (fun x => { x with revert_finished_at := some s₁.clock }) r (fun x => by simp) h
    exact ⟨rfl, hsecond⟩

theorem ledger_intended_update_gating_example :
    (rowFinished.finished_at = some sStarted.clock ∧
      audit_phase_end_fixed sFinished 1 = .error .oneError) ∧
    (rowRevStarted.revert_started_at = some sFinished.clock ∧
      audit_phase_revert_start_fixed sRevStarted 1 = .error .oneError) ∧
    (rowRevFinished.revert_finished_at = some sRevStarted.clock ∧
      audit_phase_revert_end_fixed sRevFinished 1 = .error .oneError) :=
  ⟨(ledger_intended_update_gating sStarted sFinished 1 rowFinished).1 (by rfl),
   (ledger_intended_update_gating sFinished sRevStarted 1 rowRevStarted).2.1 (by rfl),
   (ledger_intended_update_gating sRevStarted sRevFinished 1 rowRevFinished).2.2 (by rfl)⟩

/-! ## The claims -/

/-- C1: the claim describes the single-in-flight gating the `SCHEMA_DDL`
partial unique index enforces, but the code never reaches it:
`audit_phase_start` interpolates `AuditMapper.columns()` — which names
`is_revert`, a field of the stale `MigrationAudit` dataclass and not a
column of `migration_audit` — into its `RETURNING` clause, so every start
(including the very first, on an empty ledger, and a start while a row is
in flight) fails with an undefined-column error rather than the claimed
conflict error, inserts nothing, and no sequence of ledger calls ever
changes the ledger state.  (The column-corrected statements do satisfy
the claimed invariant and conflict behaviour: see
`ledger_intended_single_inflight`.) -/
theorem C1_audit_start_undefined_column :
    (∀ ops : List LedgerOp, runOps ops = LedgerState.init) ∧
    audit_phase_start LedgerState.init idxPre = .error .undefinedColumn ∧
    audit_phase_start sStarted idxPost = .error .undefinedColumn ∧
    runOp sStarted (.start idxPost) = sStarted := by
  refine ⟨runOps_const, rfl, rfl, ?_⟩
  exact runOp_error sStarted (.start idxPost) .undefinedColumn
    (applyOp_undefined sStarted (.start idxPost))

/-- C3: the claim describes the conditional-update gating of
`audit_phase_end` / `audit_phase_revert_start` / `audit_phase_revert_end`,
but in the code the first call never succeeds: each `UPDATE`'s `RETURNING`
clause is `AuditMapper.columns()`, which names the nonexistent `is_revert`
column, so every call — on a row whose gating column is unset included —
fails with an undefined-column error, stamps nothing, and leaves the
ledger unchanged.  (The column-corrected statements do satisfy the claimed
gating: see `ledger_intended_update_gating`.) -/
theorem C3_audit_update_undefined_column :
    audit_phase_end sStarted 1 = .error .undefinedColumn ∧
    audit_phase_revert_start sFinished 1 = .error .undefinedColumn ∧
    audit_phase_revert_end sRevStarted 1 = .error .undefinedColumn ∧
    runOp sStarted (.finish 1) = sStarted ∧
    runOp sFinished (.revert_start 1) = sFinished ∧
    runOp sRevStarted (.revert_finish 1) = sRevStarted := by
  refine ⟨rfl, rfl, rfl, ?_, ?_, ?_⟩ <;>
    exact runOp_error _ _ .undefinedColumn (applyOp_undefined _ _)

/-- C2: the claim describes `Database.upsert` as a no-op returning the
existing row on conflict, with a fatal mismatch error when the text
differs.  The code diverges: `ON CONFLICT DO NOTHING ... RETURNING`
returns zero rows on conflict, so re-registering the same revision with
byte-identical text raises `IndexError` at `result[0]`; and re-registering
with different text does not conflict at all (the primary key includes the
hashes and the partial unique index ignores `is_deleted = TRUE` rows), so
a second row is silently inserted with no mismatch error.  This theorem
evaluates the embedded code at those inputs. -/
theorem C2_upsert_divergence :
    upsert [] revA = ([rowA], none) ∧
    upsert [rowA] revA = ([rowA], some PyError.indexError) ∧
    upsert [rowA] revB = ([rowA, rowB], none) := by
  decide

/-- C4 (counterexample): trichotomy fails on `PhaseIndex`.  Two indices at
the same `(revision, stage, change, phase)` position whose hashes differ
satisfy none of `a < b`, `a == b`, `a > b`: the comparisons look only at
the 4-field sort key while equality looks at all six fields. -/
theorem C4_trichotomy_counterexample :
    PhaseIndex.lt ⟨1, [0], [], true, 0, 0⟩ ⟨1, [1], [], true, 0, 0⟩ = false ∧
    (⟨1, [0], [], true, 0, 0⟩ : PhaseIndex) ≠ ⟨1, [1], [], true, 0, 0⟩ ∧
    PhaseIndex.gt ⟨1, [0], [], true, 0, 0⟩ ⟨1, [1], [], true, 0, 0⟩ = false := by
  decide

/-- C4 (amended): the comparison of `PhaseIndex` by the 4-tuple
`(revision, stage-rank, change, phase)` is a strict order — asymmetric and
transitive — and together with six-field equality it satisfies trichotomy
on every pair of indices that agree on `migration_hash` and `schema_hash`;
for pairs that agree on the sort key but differ in a hash, none of the
three relations holds. -/
theorem C4_order_amended (a b c : PhaseIndex) :
    (a.migration_hash = b.migration_hash → a.schema_hash = b.schema_hash →
      ((PhaseIndex.lt a b = true ∧ a ≠ b ∧ PhaseIndex.gt a b = false) ∨
       (PhaseIndex.lt a b = false ∧ a = b ∧ PhaseIndex.gt a b = false) ∨
       (PhaseIndex.lt a b = false ∧ a ≠ b ∧ PhaseIndex.gt a b = true))) ∧
    (PhaseIndex.lt a b = true → PhaseIndex.lt b a = false) ∧
    (PhaseIndex.lt a b = true → PhaseIndex.lt b c = true → PhaseIndex.lt a c = true) ∧
    (PhaseIndex.gt a b = true → PhaseIndex.gt b c = true → PhaseIndex.gt a c = true) := by
  refine ⟨fun hm hs => ?_, fun h => ?_, fun h1 h2 => ?_, fun h1 h2 => ?_⟩
  · by_cases h1 : keyGt b.sortkey a.sortkey = true
    · exact Or.inl ⟨h1, (gt_ne b a h1).symm, keyGt_asymm b.sortkey a.sortkey h1⟩
    · by_cases h2 : keyGt a.sortkey b.sortkey = true
      · exact Or.inr (Or.inr ⟨keyGt_asymm a.sortkey b.sortkey h2, gt_ne a b h2, h2⟩)
      · refine Or.inr (Or.inl ⟨?_, ?_, ?_⟩)
        · rw [Bool.eq_false_iff]; exact h1
        · exact eq_of_sortkey_eq a b hm hs
            (keyGt_conn a.sortkey b.sortkey
              (Bool.eq_false_iff.mpr h2) (Bool.eq_false_iff.mpr h1))
        · rw [Bool.eq_false_iff]; exact h2
  · exact keyGt_asymm b.sortkey a.sortkey h
  · exact keyGt_trans c.sortkey b.sortkey a.sortkey h2 h1
  · exact keyGt_trans a.sortkey b.sortkey c.sortkey h1 h2

/-- C4 witness: the amended order at concrete indices: the pre-deploy index
of revision 1 precedes its post-deploy index, which precedes the pre-deploy
index of revision 2. -/
theorem C4_order_amended_witness :
    ((PhaseIndex.lt idxPre idxPost = true ∧ idxPre ≠ idxPost ∧
        PhaseIndex.gt idxPre idxPost = false) ∨
     (PhaseIndex.lt idxPre idxPost = false ∧ idxPre = idxPost ∧
        PhaseIndex.gt idxPre idxPost = false) ∨
     (PhaseIndex.lt idxPre idxPost = false ∧ idxPre ≠ idxPost ∧
        PhaseIndex.gt idxPre idxPost = true)) ∧
    PhaseIndex.lt idxPost idxPre = false ∧
    PhaseIndex.lt idxPre idxC = true ∧
    PhaseIndex.gt idxC idxPre = true :=
  ⟨(C4_order_amended idxPre idxPost idxC).1 rfl rfl,
   (C4_order_amended idxPre idxPost idxC).2.1 (by decide),
   (C4_order_amended idxPre idxPost idxC).2.2.1 (by decide) (by decide),
   (C4_order_amended idxC idxPost idxPre).2.2.2 (by decide) (by decide)⟩

/-- C10: an exclusive slice bound rejects only an index equal to the bound
in all six fields; an index at the bound's exact `(revision, stage, change,
phase)` position whose `migration_hash` or `schema_hash` differs is neither
before nor after the bound and not equal to it, so it is contained. -/
theorem C10_exclusive_bound_hash_mismatch (bound item : PhaseIndex)
    (hk : item.sortkey = bound.sortkey)
    (hne : item.migration_hash ≠ bound.migration_hash ∨
           item.schema_hash ≠ bound.schema_hash) :
    PhaseSlice.contains ⟨some bound, false, none, false⟩ item = true ∧
    PhaseSlice.contains ⟨none, true, some bound, false⟩ item = true := by
  have hne' : bound ≠ item := by
    intro he
    rcases hne with h | h <;> exact h (he ▸ rfl)
  have hgt : PhaseIndex.gt bound item = false := by
    rw [PhaseIndex.gt, hk]
    exact keyGt_self bound.sortkey
  have hlt : PhaseIndex.lt bound item = false := by
    rw [PhaseIndex.lt, PhaseIndex.gt, hk]
    exact keyGt_self bound.sortkey
  constructor <;> simp [PhaseSlice.contains, hgt, hlt, hne']

/-- C10 witness: a slice whose exclusive bound sits at position
`(1, pre, 0, 0)` with hash `[0]` still contains the index at the same
position with hash `[1]`. -/
theorem C10_exclusive_bound_hash_mismatch_witness :
    PhaseSlice.contains ⟨some ⟨1, [0], [], true, 0, 0⟩, false, none, false⟩
      ⟨1, [1], [], true, 0, 0⟩ = true ∧
    PhaseSlice.contains ⟨none, true, some ⟨1, [0], [], true, 0, 0⟩, false⟩
      ⟨1, [1], [], true, 0, 0⟩ = true :=
  C10_exclusive_bound_hash_mismatch ⟨1, [0], [], true, 0, 0⟩
    ⟨1, [1], [], true, 0, 0⟩ rfl (Or.inl (by decide))

/-- C6: slice membership holds exactly when the index is rejected by
neither bound — a bound rejects when the index lies strictly outside it,
or equals it (in all six fields) and the bound is exclusive; a slice with
no bounds contains every index; and for `a < b < c`, the slice from `a`
(inclusive) to `c` (exclusive) contains `b` but not `c`, while its
start-exclusive variant does not contain `a`. -/
theorem C6_slice_membership (s : PhaseSlice) (item : PhaseIndex) (si ei : Bool)
    (a b c : PhaseIndex) :
    (s.contains item = true ↔
      ((∀ st ∈ s.start,
          ¬(PhaseIndex.lt item st = true ∨ (st = item ∧ s.start_inclusive = false))) ∧
       (∀ en ∈ s.end_,
          ¬(PhaseIndex.lt en item = true ∨ (en = item ∧ s.end_inclusive = false))))) ∧
    PhaseSlice.contains ⟨none, si, none, ei⟩ item = true ∧
    (PhaseIndex.lt a b = true → PhaseIndex.lt b c = true →
      PhaseSlice.contains ⟨some a, true, some c, false⟩ b = true ∧
      PhaseSlice.contains ⟨some a, true, some c, false⟩ c = false ∧
      PhaseSlice.contains ⟨some a, false, some c, false⟩ a = false) := by
  refine ⟨?_, rfl, fun hab hbc => ?_⟩
  · obtain ⟨st?, si', en?, ei'⟩ := s
    cases st? <;> cases en? <;>
      simp [PhaseSlice.contains, PhaseIndex.lt] <;> tauto
  · have h1 : PhaseIndex.gt a b = false := keyGt_asymm b.sortkey a.sortkey hab
    have h2 : PhaseIndex.gt b c = false := keyGt_asymm c.sortkey b.sortkey hbc
    have h3 : c ≠ b := gt_ne c b hbc
    have h4 : PhaseIndex.gt a a = false := keyGt_self a.sortkey
    have h5 : PhaseIndex.lt c c = false := keyGt_self c.sortkey
    refine ⟨?_, ?_, ?_⟩ <;>
      simp [PhaseSlice.contains, PhaseIndex.lt, h1, h2, h3, h4, h5]

/-- C6 witness: the three slice facts at the concrete chain of indices
`revision 1 pre-deploy < revision 1 post-deploy < revision 2 pre-deploy`,
plus the membership characterisation for an unbounded slice. -/
theorem C6_slice_membership_witness :
    PhaseSlice.contains ⟨some idxPre, true, some idxC, false⟩ idxPost = true ∧
    PhaseSlice.contains ⟨some idxPre, true, some idxC, false⟩ idxC = false ∧
    PhaseSlice.contains ⟨some idxPre, false, some idxC, false⟩ idxPre = false :=
  (C6_slice_membership ⟨some idxPre, true, some idxC, false⟩ idxPre true false
    idxPre idxPost idxC).2.2 (by decide) (by decide)

/-- C5 (counterexample): `Migration.phases` does not set `pre_deploy` for
the pre-deploy stage: starting from an index with `pre_deploy = false`,
the enumerated pre-deploy phase keeps `pre_deploy = false`, so the output
differs from the claim's description, which requires the stage flag to be
updated to the stage being enumerated. -/
theorem C5_phases_counterexample :
    Migration.phases mEx ⟨1, [], [], false, 5, 7⟩ ≠
      phasesByClaim mEx ⟨1, [], [], false, 5, 7⟩ := by
  decide

/-- C5 (amended): `Migration.phases(starting_index)` enumerates each
pre-deploy change and then each post-deploy change in order, and each
change's phases in order, with `change`/`phase` set to the enumerated
positions and `revision`/`migration_hash`/`schema_hash` carried through
unchanged; the post-deploy stage sets `pre_deploy = false`, while the
pre-deploy stage carries `pre_deploy` through from the starting index
(rather than setting it to `true`). -/
theorem C5_phases_amended (m : Migration) (index : PhaseIndex) :
    Migration.phases m index = phasesAmended m index ∧
    ∀ t ∈ Migration.phases m index,
      (t.1).revision = index.revision ∧
      (t.1).migration_hash = index.migration_hash ∧
      (t.1).schema_hash = index.schema_hash := by
  constructor
  · rfl
  · intro t ht
    simp only [Migration.phases, List.mem_append, List.mem_flatMap,
      List.mem_map] at ht
    rcases ht with ⟨ic, _, jp, _, rfl⟩ | ⟨ic, _, jp, _, rfl⟩ <;>
      exact ⟨rfl, rfl, rfl⟩

/-- C5 witness: the amended enumeration at a concrete document with one
pre-deploy change of one phase, and the carried-through fields of the
single enumerated index. -/
theorem C5_phases_amended_witness :
    Migration.phases mEx ⟨3, [7], [9], true, 5, 7⟩ =
      phasesAmended mEx ⟨3, [7], [9], true, 5, 7⟩ ∧
    ((⟨3, [7], [9], true, 0, 0⟩ : PhaseIndex).revision = 3 ∧
     (⟨3, [7], [9], true, 0, 0⟩ : PhaseIndex).migration_hash = [7] ∧
     (⟨3, [7], [9], true, 0, 0⟩ : PhaseIndex).schema_hash = [9]) :=
  ⟨(C5_phases_amended mEx ⟨3, [7], [9], true, 5, 7⟩).1,
   (C5_phases_amended mEx ⟨3, [7], [9], true, 5, 7⟩).2
     (⟨3, [7], [9], true, 0, 0⟩, chEx, ⟨0⟩) (by decide)⟩

/-- C7 (counterexample): the constructor assertion compares the keys in
the mapping's insertion order against `range(1, len + 1)`, so a mapping
whose key set is exactly the dense sequence `{1, 2}` but whose insertion
order is `[2, 1]` fails the assertion even though the claim says every
such mapping is accepted. -/
theorem C7_dense_keys_counterexample :
    ([2, 1] : List Nat).Perm (List.range' 1 2) ∧
    revisionListKeysOk [2, 1] = false := by
  decide

/-- C7 (amended): constructing a `RevisionList` succeeds exactly when the
keys *in insertion order* are strictly ascending and form exactly the
dense sequence `1..len`: any gap, duplicate, or out-of-order insertion is
a fatal construction error. -/
theorem C7_dense_keys_amended (ks : List Nat) :
    revisionListKeysOk ks = true ↔
      (List.Sorted (· < ·) ks ∧ ∀ k, k ∈ ks ↔ (1 ≤ k ∧ k ≤ ks.length)) := by
  unfold revisionListKeysOk
  rw [beq_iff_eq]
  constructor
  · intro h
    constructor
    · rw [h]
      exact List.pairwise_lt_range' 1 ks.length
    · intro k
      constructor
      · intro hk
        rw [h] at hk
        rw [List.mem_range'_1] at hk
        omega
      · intro hk
        rw [h, List.mem_range'_1]
        omega
  · intro ⟨hsort, hmem⟩
    have hnodup : ks.Nodup := hsort.imp Nat.ne_of_lt
    have hnodup' : (List.range' 1 ks.length).Nodup := List.nodup_range' 1 ks.length
    have hperm : ks.Perm (List.range' 1 ks.length) := by
      rw [List.perm_ext_iff_of_nodup hnodup hnodup']
      intro a
      rw [hmem a, List.mem_range'_1]
      omega
    exact List.eq_of_perm_of_sorted hperm
      (hsort.imp Nat.le_of_lt)
      ((List.pairwise_lt_range' 1 ks.length).imp Nat.le_of_lt)

/-- C7 witness: the dense in-order key list `[1, 2]` passes construction
and satisfies the characterisation. -/
theorem C7_dense_keys_amended_witness :
    List.Sorted (· < ·) ([1, 2] : List Nat) ∧
    ∀ k, k ∈ ([1, 2] : List Nat) ↔ (1 ≤ k ∧ k ≤ ([1, 2] : List Nat).length) :=
  (C7_dense_keys_amended [1, 2]).mp (by decide)

/-! ## Lemmas for the slice-enumeration equivalence -/

theorem mem_phases_revision (m : Migration) (index : PhaseIndex) :
    ∀ t ∈ Migration.phases m index, (t.1).revision = index.revision := by
  intro t ht
  simp only [Migration.phases, List.mem_append, List.mem_flatMap,
    List.mem_map] at ht
  rcases ht with ⟨ic, _, jp, _, rfl⟩ | ⟨ic, _, jp, _, rfl⟩ <;> exact rfl

theorem phases_revision (r : Revision) :
    ∀ t ∈ r.phases, (t.1).revision = r.number :=
  fun t ht => mem_phases_revision r.migration r.first_index t ht

theorem contains_false_of_lt_start (slice : PhaseSlice) (st : PhaseIndex)
    (hs : slice.start = some st) (item : PhaseIndex)
    (h : item.revision < st.revision) : slice.contains item = false := by
  have hgt : PhaseIndex.gt st item = true :=
    keyGt_of_fst_lt st.sortkey item.sortkey h
  simp [PhaseSlice.contains, hs, hgt]

theorem contains_false_of_end_lt (slice : PhaseSlice) (en : PhaseIndex)
    (he : slice.end_ = some en) (item : PhaseIndex)
    (h : en.revision < item.revision) : slice.contains item = false := by
  have hlt : PhaseIndex.lt en item = true :=
    keyGt_of_fst_lt item.sortkey en.sortkey h
  simp [PhaseSlice.contains, he, hlt]

theorem get_phases_eq_filter (r : Revision) (slice : PhaseSlice) :
    Revision.get_phases r slice = r.phases.filter fun t => slice.contains t.1 := by
  have hnil1 : ∀ st, slice.start = some st → r.number < st.revision →
      r.phases.filter (fun t => slice.contains t.1) = [] := by
    intro st hs hlt
    rw [List.filter_eq_nil_iff]
    intro t ht
    rw [contains_false_of_lt_start slice st hs t.1
      (by rw [phases_revision r t ht]; exact hlt)]
    simp
  have hnil2 : ∀ en, slice.end_ = some en → en.revision < r.number →
      r.phases.filter (fun t => slice.contains t.1) = [] := by
    intro en he hlt
    rw [List.filter_eq_nil_iff]
    intro t ht
    rw [contains_false_of_end_lt slice en he t.1
      (by rw [phases_revision r t ht]; exact hlt)]
    simp
  unfold Revision.get_phases
  cases hst : slice.start with
  | none =>
    cases hen : slice.end_ with
    | none => simp
    | some en =>
      by_cases hlt : en.revision < r.number
      · simp only [decide_eq_true_eq, hlt, if_true, if_false, Bool.false_eq_true,
          decide_eq_true_eq]
        simp [hlt, hnil2 en hen hlt]
      · simp [hlt]
  | some st =>
    by_cases hlt1 : r.number < st.revision
    · simp [hlt1, hnil1 st hst hlt1]
    · cases hen : slice.end_ with
      | none => simp [hlt1]
      | some en =>
        by_cases hlt2 : en.revision < r.number
        · simp [hlt1, hlt2, hnil2 en hen hlt2]
        · simp [hlt1, hlt2]

theorem get_phases_nil_of_start_skip (r : Revision) (slice : PhaseSlice)
    (st : PhaseIndex) (hst : slice.start = some st) (h : r.number < st.revision) :
    Revision.get_phases r slice = [] := by
  unfold Revision.get_phases
  rw [hst]
  simp [h]

theorem get_phases_nil_of_end_skip (r : Revision) (slice : PhaseSlice)
    (en : PhaseIndex) (hen : slice.end_ = some en) (h : en.revision < r.number) :
    Revision.get_phases r slice = [] := by
  unfold Revision.get_phases
  rw [hen]
  cases hst : slice.start with
  | none => simp [h]
  | some st => by_cases h1 : r.number < st.revision <;> simp [h, h1]

theorem revisionList_get_phases_eq (revs : List Revision) (slice : PhaseSlice) :
    revisionListGetPhases revs slice =
      revs.flatMap fun rv =>
        (rv.get_phases slice).map fun t => (t.1, rv, t.2.1, t.2.2) := by
  unfold revisionListGetPhases
  induction revs with
  | nil => rfl
  | cons r rest ih =>
    rw [List.flatMap_cons, List.flatMap_cons, ih]
    congr 1
    cases hst : slice.start with
    | none =>
      cases hen : slice.end_ with
      | none => simp
      | some en =>
        by_cases hlt : en.revision < r.number
        · simp [hlt, get_phases_nil_of_end_skip r slice en hen hlt]
        · simp [hlt]
    | some st =>
      by_cases hlt1 : r.number < st.revision
      · simp [hlt1, get_phases_nil_of_start_skip r slice st hst hlt1]
      · cases hen : slice.end_ with
        | none => simp [hlt1]
        | some en =>
          by_cases hlt2 : en.revision < r.number
          · simp [hlt1, hlt2, get_phases_nil_of_end_skip r slice en hen hlt2]
          · simp [hlt1, hlt2]

/-- C8: the revision-bound fast path of `get_phases` is a pure
optimisation: for every revision and slice, `Revision.get_phases(slice)`
equals the plain per-index filtering of `Revision.phases()`, and
`RevisionList.get_phases(slice)` equals the concatenation of each
revision's filtered enumeration. -/
theorem C8_get_phases_refinement (r : Revision) (revs : List Revision)
    (slice : PhaseSlice) :
    Revision.get_phases r slice = (r.phases.filter fun t => slice.contains t.1) ∧
    revisionListGetPhases revs slice =
      revs.flatMap fun rv =>
        ((rv.phases.filter fun t => slice.contains t.1).map
          fun t => (t.1, rv, t.2.1, t.2.2)) := by
  refine ⟨get_phases_eq_filter r slice, ?_⟩
  rw [revisionList_get_phases_eq revs slice]
  exact List.flatMap_congr fun rv _ => by rw [get_phases_eq_filter rv slice]

end Migrator
